import Mathlib

/-!
Verification of the serial framing layer of the RMCV repository:
the fixed-length packet format (FixedPacket) and the transceiver
(TransceiverManager) in src/hardware/serial/transceiver_manager.hpp
and fixed_packet.hpp.

Packets and raw byte streams are modelled as lists of byte values
(natural numbers; the code only ever compares bytes for equality, so
no modular arithmetic is needed).  The carry-over resync buffer
(_recv_buffer together with the live-length counter _recv_buf_len) is
modelled as the list of its first _recv_buf_len bytes: compaction in
the C++ code shifts the live bytes to the front, which in the list
model is List.drop.  The transport read result is an
Option (List Nat): none models recv_len <= 0 coming back from
transporter->read (bs = some with the bytes actually read otherwise).
-/

namespace RMCV

/-- FixedPacket::HEAD_BYTE (0xff). -/
def HEAD_BYTE : Nat := 0xff

/-- FixedPacket::TAIL_BYTE (0x0d). -/
def TAIL_BYTE : Nat := 0x0d

/-- TransceiverManager::check_packet: the length must equal Capacity and the
first and last bytes of the window must be the head and tail markers. -/
def check_packet (C : Nat) (buffer : List Nat) (recv_len : Nat) : Bool :=
  if recv_len ≠ C then
    false
  else if buffer.getD 0 0 ≠ HEAD_BYTE ∨ buffer.getD (C - 1) 0 ≠ TAIL_BYTE then
    false
  else
    true

/-- The scan loop of TransceiverManager::recv_packet: for i ascending while
i + Capacity <= recv_buf_len, test check_packet on the window at i; on the
first hit return the window together with the bytes after it (the compacted
carry-over buffer).  Walking the list head by head is the same ascent of i. -/
def scanFrames (C : Nat) : List Nat → Option (List Nat × List Nat)
  | [] => none
  | b :: rest =>
      if C ≤ (b :: rest).length ∧ check_packet C ((b :: rest).take C) C = true then
        some ((b :: rest).take C, (b :: rest).drop C)
      else
        scanFrames C rest

/-- The append step of recv_packet: if the combined length would exceed
Capacity * 2 the live length is reset to 0 first, then the newly read bytes
are copied in after the surviving bytes. -/
def append_carry (C : Nat) (carry bs : List Nat) : List Nat :=
  (if C * 2 < carry.length + bs.length then [] else carry) ++ bs

/-- Result of one recv_packet call: the returned Bool, the bytes copied into
the caller's packet (none when the output packet is left untouched), and the
live contents of the carry-over buffer afterwards. -/
structure RecvOutcome where
  success : Bool
  packet : Option (List Nat)
  carry : List Nat
deriving DecidableEq

/-- TransceiverManager::recv_packet: one call, as a function of the carry-over
buffer contents and the transport read result.  none / an empty read models
recv_len <= 0 (the reconnect path: recv fails, buffer untouched); a full
well-formed read is the fast path; otherwise the bytes are appended (with
overflow reset) and the buffer is scanned for the first valid window. -/
def recv_packet (C : Nat) (carry : List Nat) (read_result : Option (List Nat)) :
    RecvOutcome :=
  match read_result with
  | none => ⟨false, none, carry⟩
  | some bs =>
    if 0 < bs.length then
      if check_packet C bs bs.length = true then
        ⟨true, some bs, carry⟩
      else
        match scanFrames C (append_carry C carry bs) with
        | some (w, rest) => ⟨true, some w, rest⟩
        | none => ⟨false, none, append_carry C carry bs⟩
    else
      ⟨false, none, carry⟩

/-- TransceiverManager::SendMode. -/
inductive SendMode
  | FIFO
  | LATEST_ONLY
  | LIMITED_FIFO
deriving DecidableEq

/-- One call on the transport made by simple_send_packet, in order. -/
inductive SendAction
  | write_act (bytes_written : Int)
  | close_act
  | open_act
deriving DecidableEq

/-- TransceiverManager::simple_send_packet: the packet is written to the
transport; if the returned byte count differs from Capacity the transport is
closed and reopened and the call fails.  The second component records the
transport calls made, in order. -/
def simple_send_packet (C : Nat) (bytes_written : Int) : Bool × List SendAction :=
  if bytes_written = (C : Int) then
    (true, [SendAction.write_act bytes_written])
  else
    (false, [SendAction.write_act bytes_written, SendAction.close_act,
             SendAction.open_act])

/-- The while loop of the LATEST_ONLY branch of send_packet: pop until the
queue is empty. -/
def drain_queue : List (List Nat) → List (List Nat)
  | [] => []
  | _ :: rest => drain_queue rest

/-- The queueing switch of TransceiverManager::send_packet (realtime send
active).  The queue front is the list head (oldest element first). -/
def enqueue_packet (mode : SendMode) (max_queue_size : Nat)
    (q : List (List Nat)) (p : List Nat) : List (List Nat) :=
  match mode with
  | SendMode.LATEST_ONLY => drain_queue q ++ [p]
  | SendMode.LIMITED_FIFO =>
      (if max_queue_size ≤ q.length then q.drop 1 else q) ++ [p]
  | SendMode.FIFO => q ++ [p]

/-- TransceiverManager::send_packet: with the realtime send thread active the
packet is queued under the send-mode policy and the call succeeds; otherwise
simple_send_packet runs synchronously (bytes_written models what the
transport write returns there).  Result: (returned Bool, queue afterwards,
transport calls made). -/
def send_packet (C : Nat) (use_realtime_send : Bool) (mode : SendMode)
    (max_queue_size : Nat) (q : List (List Nat)) (p : List Nat)
    (bytes_written : Int) : Bool × List (List Nat) × List SendAction :=
  if use_realtime_send then
    (true, enqueue_packet mode max_queue_size q p, [])
  else
    ((simple_send_packet C bytes_written).1, q, (simple_send_packet C bytes_written).2)

/-- memcpy(_buffer.data() + index, &data, DataLen) on the list model: the
bytes of the object representation of the value overwrite buf[index ..
index + DataLen). -/
def write_bytes (buf : List Nat) (index : Nat) (d : List Nat) : List Nat :=
  buf.take index ++ d ++ buf.drop (index + d.length)

/-- FixedPacket::load_data.  The value being loaded is modelled by its object
representation d (a list of DataLen = d.length bytes) together with the flag
trivially_copyable for std::is_trivially_copyable_v of its type.  Result:
(the returned optional of bool, the packet buffer after the call — unchanged
unless the bounds check and the trivially-copyable test both pass). -/
def load_data (C : Nat) (trivially_copyable : Bool) (buf d : List Nat)
    (index : Nat) : Option Bool × List Nat :=
  if 0 < index ∧ index + d.length < C - 1 then
    if trivially_copyable then
      (some true, write_bytes buf index d)
    else
      (none, buf)
  else
    (none, buf)

/-- FixedPacket::unload_data.  data_out is the object representation of the
output argument before the call.  Result: (the returned optional of bool, the
object representation of the output argument after the call — unchanged
unless the bounds check and the trivially-copyable test both pass). -/
def unload_data (C : Nat) (trivially_copyable : Bool) (buf : List Nat)
    (data_len index : Nat) (data_out : List Nat) : Option Bool × List Nat :=
  if 0 < index ∧ index + data_len < C - 1 then
    if trivially_copyable then
      (some true, (buf.drop index).take data_len)
    else
      (none, data_out)
  else
    (none, data_out)

/-- FixedPacket::is_valid: head and tail bytes in place. -/
def is_valid (C : Nat) (buf : List Nat) : Bool :=
  buf.getD 0 0 == HEAD_BYTE && buf.getD (C - 1) 0 == TAIL_BYTE

/-- TransceiverManager::get_latest_packet: result is nullopt unless the cache
holds a packet, in which case a copy of it is returned; the cache itself is
never written (the clearing line is commented out in the source).  Result:
(returned optional, cache afterwards). -/
def get_latest_packet (latest : Option (List Nat)) :
    Option (List Nat) × Option (List Nat) :=
  if latest.isSome then (latest, latest) else (none, latest)

/-- A window of Capacity bytes starting at index i fits in the live buffer
and passes check_packet. -/
def validWindow (C : Nat) (buf : List Nat) (i : Nat) : Prop :=
  i + C ≤ buf.length ∧ check_packet C ((buf.drop i).take C) C = true

instance (C : Nat) (buf : List Nat) (i : Nat) : Decidable (validWindow C buf i) :=
  inferInstanceAs (Decidable (i + C ≤ buf.length ∧
    check_packet C ((buf.drop i).take C) C = true))

theorem check_packet_iff (C : Nat) (buffer : List Nat) (recv_len : Nat) :
    check_packet C buffer recv_len = true ↔
      recv_len = C ∧ buffer.getD 0 0 = HEAD_BYTE ∧ buffer.getD (C - 1) 0 = TAIL_BYTE := by
  unfold check_packet
  split_ifs with h1 h2
  · simp only [Bool.false_eq_true, false_iff]
    intro hc
    exact h1 hc.1
  · simp only [Bool.false_eq_true, false_iff]
    push_neg at h1
    intro hc
    rcases h2 with h2 | h2 <;> [exact h2 hc.2.1; exact h2 hc.2.2]
  · push_neg at h1 h2
    simp only [true_iff]
    exact ⟨h1, h2.1, h2.2⟩

theorem scanFrames_eq_none_of_short (C : Nat) :
    ∀ buf : List Nat, buf.length < C → scanFrames C buf = none := by
  intro buf
  induction buf with
  | nil => intro _; rfl
  | cons b bs ih =>
    intro h
    unfold scanFrames
    rw [if_neg]
    · exact ih (by simp at h; omega)
    · rintro ⟨h1, _⟩
      omega

theorem scanFrames_rest_length_le (C : Nat) :
    ∀ (buf w rest : List Nat), scanFrames C buf = some (w, rest) →
      rest.length ≤ buf.length := by
  intro buf
  induction buf with
  | nil => intro w rest h; simp [scanFrames] at h
  | cons b bs ih =>
    intro w rest h
    unfold scanFrames at h
    split at h
    · simp only [Option.some.injEq, Prod.mk.injEq] at h
      rw [← h.2]
      simp
    · have := ih w rest h
      simp
      omega

theorem scanFrames_eq_of_first (C : Nat) (hC : 0 < C) :
    ∀ (buf : List Nat) (i : Nat), validWindow C buf i →
      (∀ j, j < i → ¬ validWindow C buf j) →
      scanFrames C buf = some ((buf.drop i).take C, buf.drop (i + C)) := by
  intro buf
  induction buf with
  | nil =>
    intro i hi _
    exfalso
    rcases hi with ⟨h1, _⟩
    simp at h1
    omega
  | cons b bs ih =>
    intro i hi hmin
    match i with
    | 0 =>
      rcases hi with ⟨h1, h2⟩
      unfold scanFrames
      rw [if_pos]
      · simp only [List.drop_zero, Nat.zero_add]
      · exact ⟨by simpa using h1, by simpa using h2⟩
    | k + 1 =>
      have h0 : ¬ validWindow C (b :: bs) 0 := hmin 0 (Nat.succ_pos k)
      unfold scanFrames
      rw [if_neg]
      · have hk : validWindow C bs k := by
          rcases hi with ⟨h1, h2⟩
          exact ⟨by simp at h1; omega, by rw [List.drop_succ_cons] at h2; exact h2⟩
        have hmin2 : ∀ j, j < k → ¬ validWindow C bs j := by
          intro j hj hvj
          apply hmin (j + 1) (by omega)
          rcases hvj with ⟨g1, g2⟩
          exact ⟨by simp; omega, by rw [List.drop_succ_cons]; exact g2⟩
        rw [ih k hk hmin2, show k + 1 + C = (k + C) + 1 from by omega]
        rfl
      · intro hcond
        exact h0 ⟨by omega, by simpa using hcond.2⟩

theorem recv_packet_of_check (C : Nat) (hC : 0 < C) (carry bs : List Nat)
    (h : check_packet C bs bs.length = true) :
    recv_packet C carry (some bs) = ⟨true, some bs, carry⟩ := by
  have hlen : bs.length = C := ((check_packet_iff _ _ _).mp h).1
  simp only [recv_packet]
  rw [if_pos (by omega), if_pos h]

/-- Claim C3: a transport read of exactly Capacity bytes with head byte 0xFF
and tail byte 0x0D is framed immediately: recv_packet returns true with those
bytes as the packet and the carry-over buffer (contents and live length) is
untouched. -/
theorem recv_packet_fast_path (C : Nat) (hC : 3 ≤ C) (carry bs : List Nat)
    (hlen : bs.length = C) (hhead : bs.getD 0 0 = HEAD_BYTE)
    (htail : bs.getD (C - 1) 0 = TAIL_BYTE) :
    recv_packet C carry (some bs) = ⟨true, some bs, carry⟩ :=
  recv_packet_of_check C (by omega) carry bs
    ((check_packet_iff C bs bs.length).mpr ⟨hlen, hhead, htail⟩)

theorem recv_packet_fast_path_witness :
    ([255, 0, 13] : List Nat).length = 3 ∧
    recv_packet 3 [9, 9] (some [255, 0, 13]) = ⟨true, some [255, 0, 13], [9, 9]⟩ :=
  ⟨by decide, recv_packet_fast_path 3 (by decide) [9, 9] [255, 0, 13]
    (by decide) (by decide) (by decide)⟩

theorem check_packet_of_ne (C : Nat) (buffer : List Nat) (recv_len : Nat)
    (h : recv_len ≠ C) : check_packet C buffer recv_len = false := by
  unfold check_packet
  rw [if_pos h]

/-- Claim C1: on the slow path (the read neither failed nor was itself a full
well-formed frame), after the newly read bytes are appended to the carry-over
buffer, if i is the smallest index whose Capacity-byte window starts with the
head byte 0xFF and ends with the tail byte 0x0D, then recv_packet returns
true with exactly that window as the packet, and the carry-over buffer
afterwards holds exactly the bytes that followed the window, shifted to the
front in their original order, its live length being their count. -/
theorem recv_packet_first_window (C : Nat) (hC : 3 ≤ C) (carry bs : List Nat)
    (hbs : bs ≠ []) (hfast : check_packet C bs bs.length = false) (i : Nat)
    (hi : validWindow C (append_carry C carry bs) i)
    (hmin : ∀ j, j < i → ¬ validWindow C (append_carry C carry bs) j) :
    recv_packet C carry (some bs) =
      ⟨true, some (((append_carry C carry bs).drop i).take C),
        (append_carry C carry bs).drop (i + C)⟩ := by
  have hscan := scanFrames_eq_of_first C (by omega) (append_carry C carry bs) i hi hmin
  simp only [recv_packet]
  rw [if_pos (List.length_pos.mpr hbs), if_neg (by simp [hfast]), hscan]

theorem recv_packet_first_window_witness :
    check_packet 3 [13] 1 = false ∧ validWindow 3 [255, 0, 13] 0 ∧
    recv_packet 3 [255, 0] (some [13]) =
      ⟨true, some (((append_carry 3 [255, 0] [13]).drop 0).take 3),
        (append_carry 3 [255, 0] [13]).drop (0 + 3)⟩ :=
  ⟨by decide, by decide,
    recv_packet_first_window 3 (by decide) [255, 0] [13] (by decide) (by decide) 0
      (by decide) (fun j hj => absurd hj (Nat.not_lt_zero j))⟩

/-- Claim C2: starting from an empty carry-over buffer, a well-formed
Capacity-byte frame delivered as two consecutive reads of length k and
Capacity - k (1 <= k <= Capacity - 1) is rejected by the first recv_packet
call (which keeps the k bytes buffered) and framed exactly by the second. -/
theorem recv_packet_split_frame (C k : Nat) (f : List Nat) (hC : 3 ≤ C)
    (hf : f.length = C) (hvalid : check_packet C f C = true)
    (hk1 : 1 ≤ k) (hk2 : k ≤ C - 1) :
    recv_packet C [] (some (f.take k)) = ⟨false, none, f.take k⟩ ∧
    recv_packet C (f.take k) (some (f.drop k)) = ⟨true, some f, []⟩ := by
  have hlen_take : (f.take k).length = k := by
    simp [hf]
    omega
  have hlen_drop : (f.drop k).length = C - k := by
    simp [hf]
  constructor
  · have hfast : check_packet C (f.take k) (f.take k).length = false := by
      apply check_packet_of_ne
      rw [hlen_take]
      omega
    have hap : append_carry C [] (f.take k) = f.take k := by
      unfold append_carry
      rw [if_neg (by simp [hlen_take]; omega)]
      simp
    simp only [recv_packet]
    rw [if_pos (by rw [hlen_take]; omega), if_neg (by rw [hfast]; simp), hap,
      scanFrames_eq_none_of_short C _ (by rw [hlen_take]; omega)]
  · have hfast2 : check_packet C (f.drop k) (f.drop k).length = false := by
      apply check_packet_of_ne
      rw [hlen_drop]
      omega
    have hap2 : append_carry C (f.take k) (f.drop k) = f := by
      unfold append_carry
      rw [if_neg (by rw [hlen_take, hlen_drop]; omega)]
      simp
    have hwin : validWindow C f 0 := by
      refine ⟨by omega, ?_⟩
      rw [List.drop_zero, ← hf, List.take_length, hf]
      exact hvalid
    have hscan : scanFrames C f = some (f, []) := by
      have h := scanFrames_eq_of_first C (by omega) f 0 hwin
        (fun j hj => absurd hj (Nat.not_lt_zero j))
      rw [h]
      simp only [List.drop_zero, Nat.zero_add]
      rw [← hf, List.take_length, List.drop_length]
    simp only [recv_packet]
    rw [if_pos (by rw [hlen_drop]; omega), if_neg (by rw [hfast2]; simp), hap2, hscan]

theorem recv_packet_split_frame_witness :
    check_packet 3 [255, 7, 13] 3 = true ∧
    recv_packet 3 [] (some (([255, 7, 13] : List Nat).take 1)) =
      ⟨false, none, ([255, 7, 13] : List Nat).take 1⟩ ∧
    recv_packet 3 (([255, 7, 13] : List Nat).take 1)
        (some (([255, 7, 13] : List Nat).drop 1)) = ⟨true, some [255, 7, 13], []⟩ :=
  ⟨by decide,
    (recv_packet_split_frame 3 1 [255, 7, 13] (by decide) (by decide) (by decide)
      (by decide) (by decide)).1,
    (recv_packet_split_frame 3 1 [255, 7, 13] (by decide) (by decide) (by decide)
      (by decide) (by decide)).2⟩

/-- Claim C4: the live length of the carry-over buffer never exceeds
2 * Capacity after a recv_packet call; when appending the newly read bytes
would exceed 2 * Capacity, the previously buffered bytes are all discarded
first (the call then works on the new bytes alone); and a well-formed full
frame arriving on a later call is still received whatever the buffer holds. -/
theorem recv_packet_carry_bound (C : Nat) (hC : 3 ≤ C) (carry : List Nat)
    (rd : Option (List Nat)) (hrd : ∀ bs, rd = some bs → bs.length ≤ C)
    (hcarry : carry.length ≤ C * 2) :
    (recv_packet C carry rd).carry.length ≤ C * 2 ∧
    (∀ bs, rd = some bs → C * 2 < carry.length + bs.length →
      check_packet C bs bs.length = false →
      recv_packet C carry rd =
        (match scanFrames C bs with
          | some (w, rest) => ⟨true, some w, rest⟩
          | none => ⟨false, none, bs⟩)) ∧
    (∀ f, f.length = C → check_packet C f C = true →
      recv_packet C (recv_packet C carry rd).carry (some f) =
        ⟨true, some f, (recv_packet C carry rd).carry⟩) := by
  refine ⟨?_, ?_, ?_⟩
  · match rd with
    | none => simpa [recv_packet] using hcarry
    | some bs =>
      by_cases hb : 0 < bs.length
      · by_cases hcp : check_packet C bs bs.length = true
        · rw [recv_packet_of_check C (by omega) carry bs hcp]
          exact hcarry
        · have hA : (append_carry C carry bs).length ≤ C * 2 := by
            have hbsC := hrd bs rfl
            unfold append_carry
            split_ifs with hov
            · simp
              omega
            · push_neg at hov
              simp
              omega
          simp only [recv_packet]
          rw [if_pos hb, if_neg (by simp [hcp])]
          cases hsc : scanFrames C (append_carry C carry bs) with
          | none => simpa using hA
          | some p =>
            match p with
            | (w, rest) =>
              have := scanFrames_rest_length_le C (append_carry C carry bs) w rest hsc
              simpa using le_trans this hA
      · simp only [recv_packet]
        rw [if_neg hb]
        exact hcarry
  · intro bs hbs hover hcp
    subst hbs
    have hb : 0 < bs.length := by omega
    have hap : append_carry C carry bs = bs := by
      unfold append_carry
      rw [if_pos hover]
      simp
    simp only [recv_packet]
    rw [if_pos hb, if_neg (by simp [hcp]), hap]
  · intro f hf hcpf
    exact recv_packet_of_check C (by omega) _ f (by rw [hf]; exact hcpf)

theorem recv_packet_carry_bound_witness :
    ([1, 2, 3, 4, 5] : List Nat).length ≤ 3 * 2 ∧
    (recv_packet 3 [1, 2, 3, 4, 5] (some [6])).carry.length ≤ 3 * 2 :=
  ⟨by decide,
    (recv_packet_carry_bound 3 (by decide) [1, 2, 3, 4, 5] (some [6])
      (fun bs h => by injection h with h2; subst h2; decide) (by decide)).1⟩

theorem drain_queue_eq_nil : ∀ q : List (List Nat), drain_queue q = [] := by
  intro q
  induction q with
  | nil => rfl
  | cons a rest ih => simpa [drain_queue] using ih

/-- Claim C5 does not hold at the degenerate bound N = 0: with LIMITED_FIFO,
an empty queue (so its length is at most N beforehand) and bound 0, the
source finds size() >= max_queue_size (0 >= 0), pops the empty std::queue
(a call with no defined behaviour in C++; in this model popping the empty
queue leaves it empty) and then pushes, so one element is queued afterwards
and the bound 0 is exceeded. -/
theorem send_packet_queue_policies_cex :
    ([] : List (List Nat)).length ≤ 0 ∧
    ¬ (send_packet 5 true SendMode.LIMITED_FIFO 0 [] [7] 0).2.1.length ≤ 0 := by
  decide

/-- Claim C5, amended to positive bounds: with the realtime send thread
active, a send_packet call under LATEST_ONLY leaves the queue holding exactly
the packet just passed; under LIMITED_FIFO with bound N >= 1 and at most N
elements queued beforehand, the queue afterwards has at most N elements and
holds exactly the previous elements in push order followed by the new packet,
the oldest one dropped exactly when the queue was full.  (At N = 0 the
original claim fails, see the counterexample above.) -/
theorem send_packet_queue_policies (C : Nat) (q : List (List Nat)) (p : List Nat)
    (N : Nat) (w : Int) :
    send_packet C true SendMode.LATEST_ONLY N q p w = (true, [p], []) ∧
    (0 < N → q.length ≤ N →
      (send_packet C true SendMode.LIMITED_FIFO N q p w).2.1.length ≤ N ∧
      (send_packet C true SendMode.LIMITED_FIFO N q p w).2.1 =
        (if q.length = N then q.drop 1 else q) ++ [p]) := by
  constructor
  · simp [send_packet, enqueue_packet, drain_queue_eq_nil]
  · intro hN hq
    have hdef : (send_packet C true SendMode.LIMITED_FIFO N q p w).2.1 =
        (if N ≤ q.length then q.drop 1 else q) ++ [p] := by
      simp [send_packet, enqueue_packet]
    constructor
    · rw [hdef]
      split_ifs with h
      · simp
        omega
      · simp
        omega
    · rw [hdef]
      congr 1
      split_ifs with h1 h2 h2
      · rfl
      · omega
      · omega
      · rfl

theorem send_packet_queue_policies_witness :
    0 < 2 ∧ ([[1], [2]] : List (List Nat)).length ≤ 2 ∧
    send_packet 5 true SendMode.LATEST_ONLY 2 [[1], [2]] [3] 0 = (true, [[3]], []) ∧
    (send_packet 5 true SendMode.LIMITED_FIFO 2 [[1], [2]] [3] 0).2.1 =
      (if ([[1], [2]] : List (List Nat)).length = 2 then
        ([[1], [2]] : List (List Nat)).drop 1 else [[1], [2]]) ++ [[3]] :=
  ⟨by decide, by decide, (send_packet_queue_policies 5 [[1], [2]] [3] 2 0).1,
    ((send_packet_queue_policies 5 [[1], [2]] [3] 2 0).2 (by decide) (by decide)).2⟩

/-- Claim C8: with the realtime send thread inactive, send_packet writes
synchronously; when the transport write returns a byte count different from
Capacity the call returns false having invoked close then open on the
transport exactly once, and when it returns exactly Capacity the call
returns true having touched neither close nor open. -/
theorem send_packet_sync_reconnect (C : Nat) (mode : SendMode) (N : Nat)
    (q : List (List Nat)) (p : List Nat) (w : Int) :
    (w ≠ (C : Int) →
      send_packet C false mode N q p w =
        (false, q, [SendAction.write_act w, SendAction.close_act,
          SendAction.open_act])) ∧
    (w = (C : Int) →
      send_packet C false mode N q p w = (true, q, [SendAction.write_act w])) := by
  constructor
  · intro h
    simp [send_packet, simple_send_packet, h]
  · intro h
    simp [send_packet, simple_send_packet, h]

theorem send_packet_sync_reconnect_witness :
    (3 : Int) ≠ (5 : Int) ∧
    send_packet 5 false SendMode.FIFO 0 [] [] 3 =
      (false, [], [SendAction.write_act 3, SendAction.close_act,
        SendAction.open_act]) :=
  ⟨by decide, (send_packet_sync_reconnect 5 SendMode.FIFO 0 [] [] 3).1 (by decide)⟩

/-- Claim C9: get_latest_packet returns a copy of the cached latest packet
(none when nothing was cached) and leaves the cache exactly as it was, so
repeated calls with no intervening successful receive return the same
packet. -/
theorem get_latest_packet_snapshot (latest : Option (List Nat)) :
    get_latest_packet latest = (latest, latest) := by
  unfold get_latest_packet
  split_ifs with h
  · rfl
  · cases latest with
    | none => rfl
    | some p => simp at h

theorem write_bytes_length (buf d : List Nat) (i : Nat)
    (h : i + d.length ≤ buf.length) : (write_bytes buf i d).length = buf.length := by
  unfold write_bytes
  simp
  omega

theorem write_bytes_getD_low (buf d : List Nat) (i j : Nat) (hj : j < i)
    (hi : i ≤ buf.length) :
    (write_bytes buf i d).getD j 0 = buf.getD j 0 := by
  unfold write_bytes
  rw [List.getD_eq_getElem?_getD, List.getD_eq_getElem?_getD]
  congr 1
  have hlt1 : j < (buf.take i ++ d).length := by simp; omega
  have hlt2 : j < (buf.take i).length := by simp; omega
  rw [List.getElem?_append, if_pos hlt1, List.getElem?_append, if_pos hlt2,
    List.getElem?_take_of_lt hj]

theorem write_bytes_getD_high (buf d : List Nat) (i j : Nat)
    (hij : i + d.length ≤ j) (hle : i + d.length ≤ buf.length) :
    (write_bytes buf i d).getD j 0 = buf.getD j 0 := by
  unfold write_bytes
  rw [List.getD_eq_getElem?_getD, List.getD_eq_getElem?_getD]
  congr 1
  rw [List.getElem?_append_right (by simp; omega), List.getElem?_drop]
  congr 1
  simp
  omega

/-- Claim C6: a trivially copyable value whose offset passes the bounds check
(index > 0 and index + sizeof < Capacity - 1) is loaded successfully, and
unload_data at the same index with the same length returns success and
recovers exactly the bytes written. -/
theorem load_unload_roundtrip (C : Nat) (hC : 3 ≤ C) (buf d : List Nat)
    (hbuf : buf.length = C) (index : Nat) (h1 : 0 < index)
    (h2 : index + d.length < C - 1) (data_out : List Nat) :
    load_data C true buf d index = (some true, write_bytes buf index d) ∧
    unload_data C true (write_bytes buf index d) d.length index data_out =
      (some true, d) := by
  constructor
  · unfold load_data
    rw [if_pos ⟨h1, h2⟩]
    rfl
  · unfold unload_data
    rw [if_pos ⟨h1, h2⟩]
    have hti : (buf.take index).length = index := by
      simp
      omega
    have key : ((write_bytes buf index d).drop index).take d.length = d := by
      unfold write_bytes
      rw [List.append_assoc, List.drop_left' hti, List.take_left]
    simp [key]

theorem load_unload_roundtrip_witness :
    0 < 1 ∧ 1 + ([9] : List Nat).length < 4 - 1 ∧
    load_data 4 true [255, 0, 0, 13] [9] 1 = (some true, write_bytes [255, 0, 0, 13] 1 [9]) ∧
    unload_data 4 true (write_bytes [255, 0, 0, 13] 1 [9]) 1 1 [0] = (some true, [9]) :=
  ⟨by decide, by decide,
    (load_unload_roundtrip 4 (by decide) [255, 0, 0, 13] [9] (by decide) 1
      (by decide) (by decide) [0]).1,
    (load_unload_roundtrip 4 (by decide) [255, 0, 0, 13] [9] (by decide) 1
      (by decide) (by decide) [0]).2⟩

/-- Claim C7: load_data and unload_data return nullopt — with the buffer,
respectively the output argument, untouched — exactly when the bounds check
fails (index not > 0, or index + DataLen not strictly below Capacity - 1) or
the type is not trivially copyable; in every other case they return true. -/
theorem load_unload_bounds (C : Nat) (_hC : 3 ≤ C) (tc : Bool) (buf d : List Nat)
    (index data_len : Nat) (data_out : List Nat) :
    ((load_data C tc buf d index).1 = none ↔
      ¬(0 < index) ∨ ¬(index + d.length < C - 1) ∨ tc = false) ∧
    ((load_data C tc buf d index).1 = none → (load_data C tc buf d index).2 = buf) ∧
    ((load_data C tc buf d index).1 ≠ none →
      (load_data C tc buf d index).1 = some true) ∧
    ((unload_data C tc buf data_len index data_out).1 = none ↔
      ¬(0 < index) ∨ ¬(index + data_len < C - 1) ∨ tc = false) ∧
    ((unload_data C tc buf data_len index data_out).1 = none →
      (unload_data C tc buf data_len index data_out).2 = data_out) ∧
    ((unload_data C tc buf data_len index data_out).1 ≠ none →
      (unload_data C tc buf data_len index data_out).1 = some true) := by
  unfold load_data unload_data
  refine ⟨?_, ?_, ?_, ?_, ?_, ?_⟩ <;> split_ifs with ha hb <;> simp_all <;>
    first
    | tauto
    | omega

theorem load_unload_bounds_witness :
    (3 : Nat) ≤ 3 ∧
    ((load_data 3 false [255, 0, 13] [7] 1).1 = none ↔
      ¬(0 < 1) ∨ ¬(1 + ([7] : List Nat).length < 3 - 1) ∨ false = false) :=
  ⟨by decide, (load_unload_bounds 3 (by decide) false [255, 0, 13] [7] 1 1 []).1⟩

/-- One load_data call as a state transformer on the packet buffer: op.1 is
the object representation of the value, op.2 the offset; a failing call
leaves the buffer unchanged. -/
def load_step (C : Nat) (tc : Bool) (buf : List Nat) (op : List Nat × Nat) :
    List Nat :=
  (load_data C tc buf op.1 op.2).2

theorem load_step_preserved (C : Nat) (_hC : 3 ≤ C) (tc : Bool) (buf : List Nat)
    (op : List Nat × Nat) (hbuf : buf.length = C) :
    (load_step C tc buf op).length = C ∧
    (load_step C tc buf op).getD 0 0 = buf.getD 0 0 ∧
    (load_step C tc buf op).getD (C - 2) 0 = buf.getD (C - 2) 0 ∧
    (load_step C tc buf op).getD (C - 1) 0 = buf.getD (C - 1) 0 := by
  unfold load_step load_data
  split_ifs with ha hb
  · simp only
    obtain ⟨ha1, ha2⟩ := ha
    have hle : op.2 + op.1.length ≤ buf.length := by omega
    refine ⟨by rw [write_bytes_length _ _ _ hle, hbuf], ?_, ?_, ?_⟩
    · exact write_bytes_getD_low _ _ _ _ ha1 (by omega)
    · exact write_bytes_getD_high _ _ _ _ (by omega) hle
    · exact write_bytes_getD_high _ _ _ _ (by omega) hle
  · exact ⟨hbuf, rfl, rfl, rfl⟩
  · exact ⟨hbuf, rfl, rfl, rfl⟩

theorem foldl_load_step_valid (C : Nat) (hC : 3 ≤ C) (tc : Bool) :
    ∀ (ops : List (List Nat × Nat)) (buf : List Nat), buf.length = C →
      is_valid C buf = true →
      is_valid C (ops.foldl (load_step C tc) buf) = true := by
  intro ops
  induction ops with
  | nil => intro buf _ h2; exact h2
  | cons op rest ih =>
    intro buf h1 h2
    simp only [List.foldl_cons]
    obtain ⟨hl, h0, _, hC1⟩ := load_step_preserved C hC tc buf op h1
    apply ih _ hl
    unfold is_valid at h2 ⊢
    rw [h0, hC1]
    exact h2

/-- Claim C10: a successful load_data call leaves byte 0 (head), byte
Capacity - 2 (check byte) and byte Capacity - 1 (tail) of the packet buffer
unchanged, and a structurally valid packet stays valid (is_valid keeps
holding) through any sequence of load_data calls. -/
theorem load_data_preserves_frame (C : Nat) (hC : 3 ≤ C) (tc : Bool)
    (buf d : List Nat) (hbuf : buf.length = C) (index : Nat)
    (_hsucc : (load_data C tc buf d index).1 = some true) :
    ((load_data C tc buf d index).2.getD 0 0 = buf.getD 0 0 ∧
     (load_data C tc buf d index).2.getD (C - 2) 0 = buf.getD (C - 2) 0 ∧
     (load_data C tc buf d index).2.getD (C - 1) 0 = buf.getD (C - 1) 0) ∧
    (∀ ops : List (List Nat × Nat), is_valid C buf = true →
      is_valid C (ops.foldl (load_step C tc) buf) = true) := by
  constructor
  · exact (load_step_preserved C hC tc buf (d, index) hbuf).2
  · intro ops hv
    exact foldl_load_step_valid C hC tc ops buf hbuf hv

theorem load_data_preserves_frame_witness :
    (load_data 4 true [255, 1, 2, 13] [9] 1).1 = some true ∧
    ((load_data 4 true [255, 1, 2, 13] [9] 1).2.getD 0 0 =
        ([255, 1, 2, 13] : List Nat).getD 0 0 ∧
     (load_data 4 true [255, 1, 2, 13] [9] 1).2.getD (4 - 2) 0 =
        ([255, 1, 2, 13] : List Nat).getD (4 - 2) 0 ∧
     (load_data 4 true [255, 1, 2, 13] [9] 1).2.getD (4 - 1) 0 =
        ([255, 1, 2, 13] : List Nat).getD (4 - 1) 0) :=
  ⟨by decide,
    (load_data_preserves_frame 4 (by decide) true [255, 1, 2, 13] [9]
      (by decide) 1 (by decide)).1⟩

end RMCV
